import Mathlib

/-!
Verification of the filing engine of `src/python/beancount/ingest/file.py`.

The development shallowly embeds the `file` function and its helper
`move_xdev_file` over an explicit filesystem state.  Paths are strings and
the path manipulation helpers (`os.path.join`, `os.path.normpath`,
`os.path.basename`, `os.path.dirname` on a POSIX platform) are translated
from CPython's `posixpath` implementations, since the code's behaviour on
the claims depends on them.
-/

namespace Filing

/-- A calendar date, as `datetime.date` holds it (year, month, day). -/
structure Date where
  year : Nat
  month : Nat
  day : Nat
deriving DecidableEq, Repr, Inhabited

/-- Zero-pad the decimal representation of `n` to width `w`. -/
def pad (w : Nat) (n : Nat) : String :=
  let s := Nat.repr n
  String.mk (List.replicate (w - s.length) '0') ++ s

/-- `'{0:%Y-%m-%d}'.format(date)`: ISO date formatting as used at line 127
of `file.py` (years in scope are four-digit). -/
def formatDate (d : Date) : String :=
  pad 4 d.year ++ "-" ++ pad 2 d.month ++ "-" ++ pad 2 d.day

/-- The characters after the last `'/'` of a character list: the slice
`p[p.rfind('/')+1:]` that `posixpath.basename` returns. -/
def lastComp (cs : List Char) : List Char :=
  (cs.reverse.takeWhile (fun c => c ≠ '/')).reverse

/-- `posixpath.basename`: everything after the last slash. -/
def basename (p : String) : String :=
  String.mk (lastComp p.data)

/-- Drop trailing `'/'` characters (Python's `head.rstrip('/')`). -/
def dropTrailingSlashes (cs : List Char) : List Char :=
  (cs.reverse.dropWhile (fun c => c = '/')).reverse

/-- Index of the last occurrence of `c` in `cs`, if any. -/
def lastIdxOf (c : Char) (cs : List Char) : Option Nat :=
  match cs.reverse.indexOf? c with
  | none => none
  | some j => some (cs.length - 1 - j)

/-- `posixpath.dirname`: the head up to and including the last slash, with
trailing slashes stripped unless the head is all slashes. -/
def dirname (p : String) : String :=
  let cs := p.data
  match lastIdxOf '/' cs with
  | none => ""
  | some i =>
    let head := cs.take (i + 1)
    if head.all (fun c => c = '/') then String.mk head
    else String.mk (dropTrailingSlashes head)

/-- One step of `posixpath.join` on character lists:
`b` if it starts with a slash; `a ++ b` if `a` is empty or ends with a
slash; otherwise `a ++ "/" ++ b`. -/
def joinChars (a b : List Char) : List Char :=
  if b.headD 'x' = '/' then b
  else if a.isEmpty || a.getLastD 'x' = '/' then a ++ b
  else a ++ '/' :: b

/-- One step of `posixpath.join`: `join(a, b)`. -/
def joinOne (a b : String) : String :=
  String.mk (joinChars a.data b.data)

/-- Split a character list on `'/'`, as Python's `p.split('/')`. -/
def splitSlash : List Char → List (List Char)
  | [] => [[]]
  | c :: rest =>
    let r := splitSlash rest
    if c = '/' then [] :: r
    else (c :: r.headD []) :: r.tail

/-- `'/'.join(comps)` on character lists. -/
def intercalChar : List (List Char) → List Char
  | [] => []
  | [x] => x
  | x :: xs => x ++ '/' :: intercalChar xs

/-- The component loop of `posixpath.normpath`.  `acc` is the `new_comps`
stack with its top at the head (so Python's append/pop act on the head). -/
def normAux (isAbs : Bool) : List (List Char) → List (List Char) → List (List Char)
  | [], acc => acc
  | comp :: rest, acc =>
    if comp = [] || comp = ['.'] then normAux isAbs rest acc
    else if comp ≠ ['.', '.'] || (!isAbs && acc = []) || (acc ≠ [] && acc.headD [] = ['.', '.']) then
      normAux isAbs rest (comp :: acc)
    else
      match acc with
      | [] => normAux isAbs rest []
      | _ :: t => normAux isAbs rest t

/-- `posixpath.normpath`, translated from CPython. -/
def normpath (p : String) : String :=
  let cs := p.data
  if cs.isEmpty then "."
  else
    let slashes : Nat :=
      if cs.headD 'x' = '/' then
        if (cs.drop 1).headD 'x' = '/' && (cs.drop 2).headD 'x' ≠ '/' then 2 else 1
      else 0
    let comps := splitSlash cs
    let newComps := (normAux (slashes != 0) comps []).reverse
    let out := List.replicate slashes '/' ++ intercalChar newComps
    if out.isEmpty then "." else String.mk out

/-- `account.sep` is `":"`; `file_account.replace(account.sep, os.sep)`
with `os.sep = '/'` (POSIX). -/
def accountToPath (acct : String) : String :=
  String.mk (acct.data.map (fun c => if c = ':' then '/' else c))

/-! ### Filesystem state

The filesystem is a finite store of regular files (with byte contents) and
directories.  `path.exists` is existence as either; `shutil.copyfile`
reads and (re)writes files; `os.remove` deletes a file; `os.makedirs`
adds a directory (ancestor directories are never queried by the code under
study, so the model records only the created path itself). -/

structure FS where
  files : List (String × List Nat)
  dirs : List String
deriving DecidableEq, Repr

def FS.existsPath (fs : FS) (p : String) : Bool :=
  fs.files.any (fun kv => kv.1 = p) || fs.dirs.contains p

def FS.readFile (fs : FS) (p : String) : Option (List Nat) :=
  (fs.files.find? (fun kv => kv.1 = p)).map (fun kv => kv.2)

def FS.writeFile (fs : FS) (p : String) (bytes : List Nat) : FS :=
  { fs with files := (p, bytes) :: fs.files.filter (fun kv => kv.1 ≠ p) }

def FS.removeFile (fs : FS) (p : String) : FS :=
  { fs with files := fs.files.filter (fun kv => kv.1 ≠ p) }

def FS.addDir (fs : FS) (p : String) : FS :=
  { fs with dirs := p :: fs.dirs }

/-! ### Data model

Each importer is only ever interrogated about the one file it matched, so
its three capability calls on that file and its `name()` are recorded as
fields.  A `Candidate` is one element of `identify.find_imports`'s output
(that module is an external collaborator, not under `src/`): a filename
with its ordered list of matching importers, together with the file's
last-modified date (`datetime.date.fromtimestamp(path.getmtime(f))`). -/

structure Importer where
  name : String
  file_account : Option String
  file_date : Option Date
  file_name : Option String
deriving DecidableEq, Repr, Inhabited

structure Candidate where
  filename : String
  importers : List Importer
  mtime_date : Date
deriving DecidableEq, Repr, Inhabited

/-- Line 123-124: `misc_utils.idify` applied when the `idify` flag is on.
`misc_utils` is outside the sources under study, so `idf` carries both
the flag (`none` is `idify=False`) and the abstract normalization. -/
def applyIdf (idf : Option (String → String)) (s : String) : String :=
  match idf with
  | some f => f s
  | none => s

/-- Everything `file` has computed about a candidate by line 134, just
before the report block and the destination checks. -/
structure ResInfo where
  filename : String
  importer_name : String
  account : String
  date : Date
  mtime_date : Date
  date_source : String
  new_fullname : String
deriving DecidableEq, Repr, Inhabited

/-- The per-candidate outcome of the resolution loop body of `file`
(lines 64-159 of `file.py`).  `noAccount` and `ambiguous` `continue`
WITHOUT setting `has_errors`; `destDirMissing` and `destExists` set
`has_errors = True` before continuing. -/
inductive Outcome
  | noImporters
  | noAccount
  | ambiguous (accounts : List String)
  | destDirMissing (info : ResInfo)
  | destExists (info : ResInfo)
  | ok (info : ResInfo)
deriving DecidableEq, Repr

/-- One iteration of the resolution loop of `file`, lines 64-159.
`idf` stands for the pair (`idify` flag, `misc_utils.idify`): the latter
is outside the sources under study, so it is kept abstract; `idf = none`
is `idify=False`.  The regex check at line 115 only logs a warning and
changes no state, so it has no counterpart here.  The filesystem is only
read during resolution. -/
def resolveOne (fs : FS) (destination : String) (mkdirs overwrite : Bool)
    (idf : Option (String → String)) (c : Candidate) : Outcome :=
  if c.importers.isEmpty then .noImporters
  else
    -- set(importer.file_account(file) for importer in importers) minus None
    let file_accounts := (c.importers.filterMap (fun imp => imp.file_account)).dedup
    if file_accounts.isEmpty then .noAccount
    else if 1 < file_accounts.length then .ambiguous file_accounts
    else
      let file_account := file_accounts.headD ""
      let importer := c.importers.headD default
      let mtime_date := c.mtime_date
      -- Lines 103-108: date_source starts 'mtime' and is set to
      -- 'extracted' on the mtime fallback (as written in the source).
      let resolved :=
        match importer.file_date with
        | some d => (d, "mtime")
        | none => (mtime_date, "extracted")
      let clean_filename := (importer.file_name).getD c.filename
      let clean_basename := applyIdf idf (basename clean_filename)
      let new_filename := formatDate resolved.1 ++ "." ++ clean_basename
      let new_fullname :=
        normpath (joinOne (joinOne destination (accountToPath file_account)) new_filename)
      let info : ResInfo :=
        { filename := c.filename, importer_name := importer.name,
          account := file_account, date := resolved.1, mtime_date := mtime_date,
          date_source := resolved.2, new_fullname := new_fullname }
      let new_dirname := dirname new_fullname
      if !fs.existsPath new_dirname && !mkdirs then .destDirMissing info
      else if !overwrite && fs.existsPath new_fullname then .destExists info
      else .ok info

/-- The job appended at line 159, when the iteration reaches it. -/
def jobOf : Outcome → Option (String × String)
  | .ok info => some (info.filename, info.new_fullname)
  | _ => none

/-- Whether the iteration set `has_errors = True` (lines 149, 156). -/
def setsHasErrors : Outcome → Bool
  | .destDirMissing _ => true
  | .destExists _ => true
  | _ => false

/-- One block written to `logfile` (lines 135-143).  Note the source
writes `mtime_date`, not the resolved `date`, on the `Date:` line. -/
structure ReportLine where
  filename : String
  importer_name : String
  account : String
  reported_date : Date
  date_source : String
  destination : String
deriving DecidableEq, Repr

/-- The report block the iteration writes when a logfile is attached: the
block sits at lines 135-143, after the account/date/destination
computation but before the two destination checks, so exactly the
outcomes carrying a `ResInfo` emit one. -/
def reportOf : Outcome → Option ReportLine
  | .destDirMissing i | .destExists i | .ok i =>
      some { filename := i.filename, importer_name := i.importer_name,
             account := i.account, reported_date := i.mtime_date,
             date_source := i.date_source, destination := i.new_fullname }
  | _ => none

/-! ### The move phase -/

/-- The two exceptions `move_xdev_file` can raise: the `OSError` of
line 188, and a failure of `shutil.copyfile` (source unreadable, or a
partial copy).  Either propagates out of `file`'s loop. -/
inductive MoveErr
  | dirMissing
  | copyFailed
deriving DecidableEq, Repr

/-- Lines 191-196: `shutil.copyfile(src, dst)` then `os.remove(src)`.
`copyOk` says whether the copy completes; when it fails partway,
`partialBytes` is what it leaves at the destination.  `copyfile` raises
before writing anything when the source is unreadable (it opens the
source first) or when source and destination are the same existing file
(`SameFileError`); `os.remove` runs only after a completed copy. -/
def copyfileThenDelete (copyOk : Bool) (partialBytes : List Nat)
    (src_filename dst_filename : String) (fs : FS) : FS × Option MoveErr :=
  match fs.readFile src_filename with
  | none => (fs, some .copyFailed)
  | some bytes =>
    if src_filename = dst_filename then (fs, some .copyFailed)
    else if copyOk then (((fs.writeFile dst_filename bytes).removeFile src_filename), none)
    else (fs.writeFile dst_filename partialBytes, some .copyFailed)

/-- `move_xdev_file` (lines 173-196).  The returned `FS` is the state
when the call returns or when the exception escapes. -/
def move_xdev_file (copyOk : Bool) (partialBytes : List Nat)
    (src_filename dst_filename : String) (mkdirs : Bool) (fs : FS) :
    FS × Option MoveErr :=
  let dst_dirname := dirname dst_filename
  if mkdirs then
    let fs := if fs.existsPath dst_dirname then fs else fs.addDir dst_dirname
    copyfileThenDelete copyOk partialBytes src_filename dst_filename fs
  else
    if !fs.existsPath dst_dirname then (fs, some .dirMissing)
    else copyfileThenDelete copyOk partialBytes src_filename dst_filename fs

/-- The loop at lines 167-168: move each job in order; the first exception
escapes, abandoning the remaining jobs.  `copyOk i` / `partialBytes i`
describe the i-th copy attempt. -/
def movePhase (copyOk : Nat → Bool) (partialBytes : Nat → List Nat) (mkdirs : Bool) :
    List (String × String) → Nat → FS → FS × Option MoveErr
  | [], _, fs => (fs, none)
  | (src, dst) :: rest, i, fs =>
    match move_xdev_file (copyOk i) (partialBytes i) src dst mkdirs fs with
    | (fs2, none) => movePhase copyOk partialBytes mkdirs rest (i + 1) fs2
    | (fs2, some e) => (fs2, some e)

/-- How a call of `file` terminates: `return` with no value (line 164),
an exception from the move loop, or `return jobs` (line 170). -/
inductive FileResult
  | returnedNone
  | raised (e : MoveErr)
  | returnedJobs (jobs : List (String × String))
deriving DecidableEq, Repr

/-- The `file` function (lines 24-170), given the output of
`identify.find_imports` as the candidate list.  Resolution only reads the
filesystem, so resolving every candidate against the initial state is
faithful; the move loop then mutates it. -/
def file (copyOk : Nat → Bool) (partialBytes : Nat → List Nat)
    (candidates : List Candidate) (destination : String)
    (dry_run mkdirs overwrite : Bool) (idf : Option (String → String))
    (fs : FS) : FS × FileResult :=
  let outcomes := candidates.map (resolveOne fs destination mkdirs overwrite idf)
  let jobs := outcomes.filterMap jobOf
  let has_errors := outcomes.any setsHasErrors
  if dry_run || has_errors then (fs, .returnedNone)
  else
    match movePhase copyOk partialBytes mkdirs jobs 0 fs with
    | (fs2, none) => (fs2, .returnedJobs jobs)
    | (fs2, some e) => (fs2, .raised e)

/-- The report stream of a run: one block per outcome that reaches
line 135, in candidate order. -/
def reportsOf (fs : FS) (destination : String) (mkdirs overwrite : Bool)
    (idf : Option (String → String)) (candidates : List Candidate) : List ReportLine :=
  (candidates.map (resolveOne fs destination mkdirs overwrite idf)).filterMap reportOf

/-! ### Derived views used by the statements -/

/-- The `ResInfo` carried by an outcome, when the iteration got past the
account resolution. -/
def infoOf : Outcome → Option ResInfo
  | .destDirMissing i | .destExists i | .ok i => some i
  | _ => none

/-- The set of non-`None` accounts of lines 75-77, as a duplicate-free
list. -/
def fileAccounts (c : Candidate) : List String :=
  (c.importers.filterMap (fun imp => imp.file_account)).dedup

/-- All outcomes of a run, in candidate order. -/
def outcomesOf (fs : FS) (destination : String) (mkdirs overwrite : Bool)
    (idf : Option (String → String)) (candidates : List Candidate) : List Outcome :=
  candidates.map (resolveOne fs destination mkdirs overwrite idf)

/-- The `jobs` list of a run (line 159 accumulations). -/
def jobsOf (fs : FS) (destination : String) (mkdirs overwrite : Bool)
    (idf : Option (String → String)) (candidates : List Candidate) : List (String × String) :=
  (outcomesOf fs destination mkdirs overwrite idf candidates).filterMap jobOf

/-- The final value of the `has_errors` flag of a run. -/
def has_errorsOf (fs : FS) (destination : String) (mkdirs overwrite : Bool)
    (idf : Option (String → String)) (candidates : List Candidate) : Bool :=
  (outcomesOf fs destination mkdirs overwrite idf candidates).any setsHasErrors

/-- The `clean_basename` of lines 110-124 for a candidate's primary
importer: the importer-supplied name, else the file's own name, with any
directory part stripped and the optional idify normalization applied. -/
def cleanedBasename (idf : Option (String → String)) (c : Candidate) : String :=
  applyIdf idf (basename (((c.importers.headD default).file_name).getD c.filename))

/-- A string with no path separator in it. -/
def slashFree (s : String) : Bool :=
  s.data.all (fun c => c ≠ '/')

/-! ### Concrete fixtures for witnesses and counterexamples -/

/-- An importer declaring `Assets:Bank:Checking`, no date, no name. -/
def impStatement : Importer :=
  { name := "A", file_account := some "Assets:Bank:Checking",
    file_date := none, file_name := none }

/-- `statement.pdf` with mtime date 2014-06-08, matched by
`impStatement` (the scenario of the spec). -/
def candStatement : Candidate :=
  { filename := "statement.pdf", importers := [impStatement],
    mtime_date := ⟨2014, 6, 8⟩ }

/-- A filesystem holding `statement.pdf` and the account directory under
`/docs`. -/
def fsDocs : FS :=
  { files := [("statement.pdf", [1, 2, 3])],
    dirs := ["/docs/Assets/Bank/Checking"] }

/-- An importer that matches but supplies no account. -/
def impNoAcct : Importer :=
  { name := "N", file_account := none, file_date := none, file_name := none }

/-- A candidate whose only importer yields no account. -/
def candNoAcct : Candidate :=
  { filename := "x.csv", importers := [impNoAcct], mtime_date := ⟨2014, 1, 1⟩ }

/-- An importer declaring a different account. -/
def impOther : Importer :=
  { name := "B", file_account := some "Assets:Cash",
    file_date := none, file_name := none }

/-- A candidate claimed by two importers declaring different accounts. -/
def candAmbig : Candidate :=
  { filename := "invoice.csv", importers := [impStatement, impOther],
    mtime_date := ⟨2014, 1, 1⟩ }

/-- An importer that also extracts a document date (2014-02-02). -/
def impDated : Importer :=
  { name := "D", file_account := some "Assets:Bank:Checking",
    file_date := some ⟨2014, 2, 2⟩, file_name := none }

/-- `statement.pdf` (mtime date 2014-06-08) matched by `impDated`. -/
def candDated : Candidate :=
  { filename := "statement.pdf", importers := [impDated],
    mtime_date := ⟨2014, 6, 8⟩ }

/-- A second source file that resolves to the same destination as
`candStatement`. -/
def candStatement2 : Candidate :=
  { filename := "other/statement.pdf", importers := [impStatement],
    mtime_date := ⟨2014, 6, 8⟩ }

/-- Both source files of the duplicate-destination batch. -/
def fsTwo : FS :=
  { files := [("statement.pdf", [1, 2, 3]), ("other/statement.pdf", [7])],
    dirs := ["/docs/Assets/Bank/Checking"] }

/-- Like `fsDocs` but with the computed destination already on disk. -/
def fsClobber : FS :=
  { files := [("statement.pdf", [1, 2, 3]),
              ("/docs/Assets/Bank/Checking/2014-06-08.statement.pdf", [9])],
    dirs := ["/docs/Assets/Bank/Checking"] }

/-- An importer returning a name with a directory part. -/
def impDeep : Importer :=
  { name := "P", file_account := some "Assets:Bank:Checking",
    file_date := none, file_name := some "deep/dir/name.pdf" }

/-- A candidate whose importer-supplied name contains separators. -/
def candDeep : Candidate :=
  { filename := "statement.pdf", importers := [impDeep],
    mtime_date := ⟨2014, 6, 8⟩ }

/-- The resolution record of `candDeep` against `fsDocs`: the directory
part of the importer-supplied name is stripped. -/
def infoDeep : ResInfo :=
  { filename := "statement.pdf", importer_name := "P",
    account := "Assets:Bank:Checking", date := ⟨2014, 6, 8⟩,
    mtime_date := ⟨2014, 6, 8⟩, date_source := "extracted",
    new_fullname := "/docs/Assets/Bank/Checking/2014-06-08.name.pdf" }

/-- The resolution record of `candStatement` against `fsDocs`. -/
def infoStatement : ResInfo :=
  { filename := "statement.pdf", importer_name := "A",
    account := "Assets:Bank:Checking", date := ⟨2014, 6, 8⟩,
    mtime_date := ⟨2014, 6, 8⟩, date_source := "extracted",
    new_fullname := "/docs/Assets/Bank/Checking/2014-06-08.statement.pdf" }

/-! ## Theorems -/

/-- C9: a candidate matched by zero importers is silently skipped: the
iteration produces no job, no report block, and leaves `has_errors`
untouched, so it cannot affect whether the move phase runs. -/
theorem zero_importers_silent_skip (fs : FS) (dest : String) (mk ov : Bool)
    (idf : Option (String → String)) (fn : String) (mt : Date) :
    resolveOne fs dest mk ov idf ⟨fn, [], mt⟩ = .noImporters ∧
    jobOf (resolveOne fs dest mk ov idf ⟨fn, [], mt⟩) = none ∧
    setsHasErrors (resolveOne fs dest mk ov idf ⟨fn, [], mt⟩) = false ∧
    reportOf (resolveOne fs dest mk ov idf ⟨fn, [], mt⟩) = none :=
  ⟨rfl, rfl, rfl, rfl⟩

/-- C7 (divergence of the code from the claim): for a file whose
importer extracts a date, the destination uses the extracted date
2014-02-02, yet the report block tags the date `"mtime"` and prints the
mtime date 2014-06-08; and a file failing account resolution produces no
report block at all. -/
theorem date_source_tag_swapped :
    (reportsOf fsDocs "/docs" false false none [candDated]).map
        (fun r => (r.date_source, r.reported_date)) =
      [("mtime", ⟨2014, 6, 8⟩)] ∧
    jobsOf fsDocs "/docs" false false none [candDated] =
      [("statement.pdf", "/docs/Assets/Bank/Checking/2014-02-02.statement.pdf")] ∧
    reportsOf fsDocs "/docs" false false none [candNoAcct] = [] := by
  decide

/-- C1 fails as stated: a run in which account resolution errored (a
'no account provided' error) still performs the other job's move — the
filesystem changes and the moved file reaches its destination. -/
theorem account_error_does_not_abort_moves :
    resolveOne fsDocs "/docs" false false none candNoAcct = .noAccount ∧
    (file (fun _ => true) (fun _ => []) [candNoAcct, candStatement]
        "/docs" false false false none fsDocs).1 ≠ fsDocs ∧
    (file (fun _ => true) (fun _ => []) [candNoAcct, candStatement]
        "/docs" false false false none fsDocs).1.readFile
      "/docs/Assets/Bank/Checking/2014-06-08.statement.pdf" = some [1, 2, 3] := by
  decide

/-- C1 (amended): only the destination-check errors (missing destination
directory, destination collision) set `has_errors`; when any of those
occurred, the move phase is skipped entirely and the filesystem is
unchanged. -/
theorem dest_errors_abort_run (copyOk : Nat → Bool) (pb : Nat → List Nat)
    (cs : List Candidate) (dest : String) (dry mk ov : Bool)
    (idf : Option (String → String)) (fs : FS)
    (h : has_errorsOf fs dest mk ov idf cs = true) :
    file copyOk pb cs dest dry mk ov idf fs = (fs, .returnedNone) := by
  simp only [has_errorsOf, outcomesOf] at h
  simp [file, h]

/-- Witness for `dest_errors_abort_run`: a destination collision leaves
the filesystem untouched. -/
theorem dest_errors_abort_run_witness :
    file (fun _ => true) (fun _ => []) [candStatement] "/docs" false false false
      none fsClobber = (fsClobber, .returnedNone) :=
  dest_errors_abort_run (fun _ => true) (fun _ => []) [candStatement] "/docs"
    false false false none fsClobber (by decide)

/-- C5 fails as stated: a run with a resolution error (no account for
`x.csv`) does not return an empty/aborted result — it moves the other
file and returns its (source, destination) pair. -/
theorem resolution_error_still_returns_jobs :
    resolveOne fsDocs "/docs" false false none candNoAcct = .noAccount ∧
    (file (fun _ => true) (fun _ => []) [candNoAcct, candStatement]
        "/docs" false false false none fsDocs).2 =
      .returnedJobs
        [("statement.pdf", "/docs/Assets/Bank/Checking/2014-06-08.statement.pdf")] := by
  decide

/-- C5 (amended): when the dry-run flag is set or a destination-check
error occurred, `file` performs zero filesystem mutation and returns no
job list; otherwise it hands the jobs, in resolution order, to the move
loop and returns them when every move succeeds. -/
theorem dry_run_or_dest_error_gates_moves (copyOk : Nat → Bool)
    (pb : Nat → List Nat) (cs : List Candidate) (dest : String) (mk ov : Bool)
    (idf : Option (String → String)) (fs : FS) :
    (∀ dry : Bool, dry = true ∨ has_errorsOf fs dest mk ov idf cs = true →
        file copyOk pb cs dest dry mk ov idf fs = (fs, .returnedNone)) ∧
    (has_errorsOf fs dest mk ov idf cs = false →
        file copyOk pb cs dest false mk ov idf fs =
          (match movePhase copyOk pb mk (jobsOf fs dest mk ov idf cs) 0 fs with
           | (fs2, none) => (fs2, .returnedJobs (jobsOf fs dest mk ov idf cs))
           | (fs2, some e) => (fs2, .raised e))) := by
  constructor
  · intro dry hd
    rcases hd with hd | hd
    · subst hd; simp [file]
    · simp only [has_errorsOf, outcomesOf] at hd
      simp [file, hd]
  · intro hd
    simp only [has_errorsOf, outcomesOf] at hd
    simp [file, hd, jobsOf, outcomesOf]

/-- Witness for `dry_run_or_dest_error_gates_moves`: a dry run returns
nothing and changes nothing; a clean run returns the executed pair. -/
theorem dry_run_or_dest_error_gates_moves_witness :
    file (fun _ => true) (fun _ => []) [candStatement] "/docs" true false false
      none fsDocs = (fsDocs, .returnedNone) ∧
    file (fun _ => true) (fun _ => []) [candStatement] "/docs" false false false
      none fsDocs =
      ({ files := [("/docs/Assets/Bank/Checking/2014-06-08.statement.pdf", [1, 2, 3])],
         dirs := ["/docs/Assets/Bank/Checking"] },
       .returnedJobs
         [("statement.pdf", "/docs/Assets/Bank/Checking/2014-06-08.statement.pdf")]) := by
  constructor
  · exact (dry_run_or_dest_error_gates_moves (fun _ => true) (fun _ => [])
      [candStatement] "/docs" false false none fsDocs).1 true (Or.inl (by decide))
  · have h := (dry_run_or_dest_error_gates_moves (fun _ => true) (fun _ => [])
      [candStatement] "/docs" false false none fsDocs).2 (by decide)
    rw [h]
    decide

/-- C8 fails as stated: two source files of one batch resolve to the
same destination, no error is recorded, and both jobs reach (and run in)
the move phase. -/
theorem duplicate_destinations_reach_move_phase :
    has_errorsOf fsTwo "/docs" false false none [candStatement, candStatement2] = false ∧
    jobsOf fsTwo "/docs" false false none [candStatement, candStatement2] =
      [("statement.pdf", "/docs/Assets/Bank/Checking/2014-06-08.statement.pdf"),
       ("other/statement.pdf", "/docs/Assets/Bank/Checking/2014-06-08.statement.pdf")] ∧
    (file (fun _ => true) (fun _ => []) [candStatement, candStatement2]
        "/docs" false false false none fsTwo).2 =
      .returnedJobs
        [("statement.pdf", "/docs/Assets/Bank/Checking/2014-06-08.statement.pdf"),
         ("other/statement.pdf", "/docs/Assets/Bank/Checking/2014-06-08.statement.pdf")] := by
  decide

/-- C8 (amended): the collision check consults only the filesystem:
with overwrite disabled, every job's destination is a path that does not
exist on disk at resolution time.  Uniqueness within the batch is not
checked (see `duplicate_destinations_reach_move_phase`). -/
theorem job_destination_not_on_disk (fs : FS) (dest : String) (mk : Bool)
    (idf : Option (String → String)) (c : Candidate) (i : ResInfo)
    (h : resolveOne fs dest mk false idf c = .ok i) :
    fs.existsPath i.new_fullname = false := by
  unfold resolveOne at h
  dsimp only at h
  split at h
  · exact Outcome.noConfusion h
  · split at h
    · exact Outcome.noConfusion h
    · split at h
      · exact Outcome.noConfusion h
      · split at h
        · exact Outcome.noConfusion h
        · split at h
          · exact Outcome.noConfusion h
          · rename_i hex
            obtain rfl : _ = i := (Outcome.ok.injEq _ _).mp h
            simpa using hex

/-- Witness for `job_destination_not_on_disk` at the spec's scenario. -/
theorem job_destination_not_on_disk_witness :
    fsDocs.existsPath "/docs/Assets/Bank/Checking/2014-06-08.statement.pdf" = false :=
  job_destination_not_on_disk fsDocs "/docs" false none candStatement
    { filename := "statement.pdf", importer_name := "A",
      account := "Assets:Bank:Checking", date := ⟨2014, 6, 8⟩,
      mtime_date := ⟨2014, 6, 8⟩, date_source := "extracted",
      new_fullname := "/docs/Assets/Bank/Checking/2014-06-08.statement.pdf" }
    (by decide)

/-- C2: account resolution over the set of non-none `file_account`
results: empty set → 'no account provided' error and no job; more than
one distinct account → 'ambiguous accounts' error carrying exactly the
candidate accounts and no job; exactly one → that account owns the job. -/
theorem account_resolution_cases (fs : FS) (dest : String) (mk ov : Bool)
    (idf : Option (String → String)) (c : Candidate) (h : c.importers ≠ []) :
    (fileAccounts c = [] →
       resolveOne fs dest mk ov idf c = .noAccount ∧
       jobOf (resolveOne fs dest mk ov idf c) = none) ∧
    (1 < (fileAccounts c).length →
       resolveOne fs dest mk ov idf c = .ambiguous (fileAccounts c) ∧
       jobOf (resolveOne fs dest mk ov idf c) = none ∧
       ∀ a, a ∈ fileAccounts c ↔ ∃ imp ∈ c.importers, imp.file_account = some a) ∧
    (∀ a, fileAccounts c = [a] →
       ∃ i, infoOf (resolveOne fs dest mk ov idf c) = some i ∧ i.account = a) := by
  have hne : c.importers.isEmpty = false := by
    cases hc : c.importers
    · exact absurd hc h
    · rfl
  refine ⟨?_, ?_, ?_⟩
  · intro ha
    simp only [fileAccounts] at ha
    simp [resolveOne, hne, ha, jobOf]
  · intro hl
    have ha : (fileAccounts c).isEmpty = false := by
      cases hf : fileAccounts c
      · rw [hf] at hl; simp at hl
      · rfl
    refine ⟨?_, ?_, ?_⟩
    · simp only [fileAccounts] at ha hl ⊢
      simp [resolveOne, hne, ha, hl]
    · simp only [fileAccounts] at ha hl ⊢
      simp [resolveOne, hne, ha, hl, jobOf]
    · intro a
      simp [fileAccounts, List.mem_dedup, List.mem_filterMap]
  · intro a ha
    simp only [fileAccounts] at ha
    simp only [resolveOne, hne, ha]
    simp only [List.isEmpty_cons, Bool.false_eq_true, if_false, List.length_singleton,
      lt_irrefl, List.headD_cons]
    split
    · exact ⟨_, rfl, rfl⟩
    · split
      · exact ⟨_, rfl, rfl⟩
      · exact ⟨_, rfl, rfl⟩

/-- Witness for `account_resolution_cases`: the empty-set branch at
`candNoAcct` and the exactly-one branch at `candStatement`. -/
theorem account_resolution_cases_witness :
    (resolveOne fsDocs "/docs" false false none candNoAcct = .noAccount ∧
     jobOf (resolveOne fsDocs "/docs" false false none candNoAcct) = none) ∧
    (∃ i, infoOf (resolveOne fsDocs "/docs" false false none candStatement) = some i ∧
       i.account = "Assets:Bank:Checking") :=
  ⟨(account_resolution_cases fsDocs "/docs" false false none candNoAcct
      (by decide)).1 (by decide),
   (account_resolution_cases fsDocs "/docs" false false none candStatement
      (by decide)).2.2 "Assets:Bank:Checking" (by decide)⟩

/-- C4: a file matched by exactly one importer that supplies an account
resolves to that account, and to the importer's extracted date when
`file_date` yields one, else to the file's last-modified date. -/
theorem single_importer_account_and_date (fs : FS) (dest : String) (mk ov : Bool)
    (idf : Option (String → String)) (c : Candidate) (imp : Importer) (a : String)
    (h1 : c.importers = [imp]) (h2 : imp.file_account = some a) :
    ∃ i, infoOf (resolveOne fs dest mk ov idf c) = some i ∧
      i.account = a ∧ i.date = imp.file_date.getD c.mtime_date := by
  simp only [resolveOne, h1]
  simp only [List.isEmpty_cons, Bool.false_eq_true, if_false, List.filterMap, h2,
    List.dedup_cons_of_not_mem (List.not_mem_nil a), List.dedup_nil,
    List.length_singleton, lt_irrefl, List.headD_cons]
  cases hd : imp.file_date <;>
    · simp only [Option.getD]
      split
      · exact ⟨_, rfl, rfl, rfl⟩
      · split
        · exact ⟨_, rfl, rfl, rfl⟩
        · exact ⟨_, rfl, rfl, rfl⟩

/-- Witness for `single_importer_account_and_date` at `candDated`. -/
theorem single_importer_account_and_date_witness :
    ∃ i, infoOf (resolveOne fsDocs "/docs" false false none candDated) = some i ∧
      i.account = "Assets:Bank:Checking" ∧
      i.date = impDated.file_date.getD candDated.mtime_date :=
  single_importer_account_and_date fsDocs "/docs" false false none candDated
    impDated "Assets:Bank:Checking" (by decide) (by decide)

/-- Any resolution record's destination is the normalized join of the
destination root, the account as path segments, and the date-prefixed
cleaned basename. -/
theorem infoOf_new_fullname (fs : FS) (dest : String) (mk ov : Bool)
    (idf : Option (String → String)) (c : Candidate) (i : ResInfo)
    (h : infoOf (resolveOne fs dest mk ov idf c) = some i) :
    i.new_fullname =
      normpath (joinOne (joinOne dest (accountToPath i.account))
        (formatDate i.date ++ "." ++ cleanedBasename idf c)) := by
  unfold resolveOne at h
  dsimp only at h
  split at h
  · simp [infoOf] at h
  · split at h
    · simp [infoOf] at h
    · split at h
      · simp [infoOf] at h
      · split at h <;>
          [skip; split at h] <;>
        · simp only [infoOf, Option.some.injEq] at h
          subst h
          simp [cleanedBasename]

/-- C6: every resolved destination is the destination root joined with
the account mapped to path segments joined with
`YYYY-MM-DD.<cleaned basename>`, all normalized; at the spec's scenario
this yields `(statement.pdf,
/docs/Assets/Bank/Checking/2014-06-08.statement.pdf)`. -/
theorem destination_path_formula (fs : FS) (dest : String) (mk ov : Bool)
    (idf : Option (String → String)) (c : Candidate) (i : ResInfo)
    (h : infoOf (resolveOne fs dest mk ov idf c) = some i) :
    i.new_fullname =
      normpath (joinOne (joinOne dest (accountToPath i.account))
        (formatDate i.date ++ "." ++ cleanedBasename idf c)) ∧
    jobOf (resolveOne fsDocs "/docs" false false none candStatement) =
      some ("statement.pdf", "/docs/Assets/Bank/Checking/2014-06-08.statement.pdf") :=
  ⟨infoOf_new_fullname fs dest mk ov idf c i h, by decide⟩

/-- Witness for `destination_path_formula` at the spec's scenario. -/
theorem destination_path_formula_witness :
    infoStatement.new_fullname =
      normpath (joinOne (joinOne "/docs" (accountToPath infoStatement.account))
        (formatDate infoStatement.date ++ "." ++ cleanedBasename none candStatement)) ∧
    jobOf (resolveOne fsDocs "/docs" false false none candStatement) =
      some ("statement.pdf", "/docs/Assets/Bank/Checking/2014-06-08.statement.pdf") :=
  destination_path_formula fsDocs "/docs" false false none candStatement
    infoStatement (by decide)

/-- Removing a file really removes it. -/
theorem readFile_removeFile (fs : FS) (p : String) :
    (fs.removeFile p).readFile p = none := by
  simp only [FS.removeFile, FS.readFile]
  have hnone : List.find? (fun kv => kv.1 = p) (fs.files.filter (fun kv => kv.1 ≠ p)) = none := by
    rw [List.find?_eq_none]
    intro x hx
    have := (List.mem_filter.mp hx).2
    simpa using this
  rw [hnone]
  rfl

/-- A write followed by the deletion of a different path keeps the
written contents. -/
theorem readFile_writeFile_removeFile (fs : FS) (src dst : String) (bs : List Nat)
    (hne : src ≠ dst) :
    ((fs.writeFile dst bs).removeFile src).readFile dst = some bs := by
  simp [FS.writeFile, FS.removeFile, FS.readFile, List.filter_cons, List.find?,
    Ne.symm hne]

/-- Filtering out one key leaves lookups of a different key unchanged. -/
theorem find?_key_filter (l : List (String × List Nat)) (src dst : String)
    (hne : src ≠ dst) :
    (l.filter (fun kv => kv.1 ≠ dst)).find? (fun kv => kv.1 = src) =
      l.find? (fun kv => kv.1 = src) := by
  induction l with
  | nil => rfl
  | cons x xs ih =>
    rw [List.filter_cons]
    by_cases hx : x.1 = dst
    · rw [if_neg (by simp [hx]), ih,
        List.find?_cons_of_neg _ (by simp [hx, Ne.symm hne])]
    · rw [if_pos (by simpa using hx)]
      by_cases hs : x.1 = src
      · rw [List.find?_cons_of_pos _ (by simpa using hs),
          List.find?_cons_of_pos _ (by simpa using hs)]
      · rw [List.find?_cons_of_neg _ (by simpa using hs),
          List.find?_cons_of_neg _ (by simpa using hs), ih]

/-- Writing one path leaves reads of a different path unchanged. -/
theorem readFile_writeFile_other (fs : FS) (src dst : String) (bs : List Nat)
    (hne : src ≠ dst) :
    (fs.writeFile dst bs).readFile src = fs.readFile src := by
  simp only [FS.writeFile, FS.readFile, List.find?]
  rw [show (decide (dst = src)) = false by simp [Ne.symm hne]]
  rw [find?_key_filter fs.files src dst hne]

/-- The optional `makedirs` of lines 183-185 never touches file
contents. -/
theorem readFile_mkdirs (fs : FS) (d p : String) :
    (if fs.existsPath d then fs else fs.addDir d).readFile p = fs.readFile p := by
  split <;> rfl

/-- A returning `copyfileThenDelete` leaves the source's bytes at the
destination and no file at the source. -/
theorem copyfileThenDelete_success (ck : Bool) (pb : List Nat) (src dst : String)
    (fs fs2 : FS) (h : copyfileThenDelete ck pb src dst fs = (fs2, none)) :
    ∃ bs, fs.readFile src = some bs ∧ fs2.readFile dst = some bs ∧
      fs2.readFile src = none := by
  unfold copyfileThenDelete at h
  split at h
  · simp at h
  · rename_i bs hread
    split at h
    · simp at h
    · rename_i hnesd
      split at h
      · have hfs : (fs.writeFile dst bs).removeFile src = fs2 := congrArg Prod.fst h
        subst hfs
        exact ⟨bs, hread, readFile_writeFile_removeFile fs src dst bs hnesd,
          readFile_removeFile _ src⟩
      · simp at h

/-- A raising `copyfileThenDelete` never deletes the source. -/
theorem copyfileThenDelete_failure (ck : Bool) (pb : List Nat) (src dst : String)
    (fs fs2 : FS) (e : MoveErr)
    (h : copyfileThenDelete ck pb src dst fs = (fs2, some e)) :
    fs2.readFile src = fs.readFile src := by
  unfold copyfileThenDelete at h
  split at h
  · obtain rfl : fs = fs2 := congrArg Prod.fst h
    rfl
  · rename_i bs hread
    split at h
    · obtain rfl : fs = fs2 := congrArg Prod.fst h
      rfl
    · rename_i hnesd
      split at h
      · simp at h
      · obtain rfl : fs.writeFile dst pb = fs2 := congrArg Prod.fst h
        exact readFile_writeFile_other fs src dst pb hnesd

/-- C3: each executed move copies then deletes: on success the
destination holds exactly the source's bytes and the source is gone; a
failed copy never deletes the source; and a failure aborts the loop — no
job after the failing one is attempted. -/
theorem copy_then_delete_semantics (ck : Bool) (pb : List Nat)
    (src dst : String) (mk : Bool) (fs fs2 : FS) (e : MoveErr)
    (rest : List (String × String)) (i : Nat)
    (ckf : Nat → Bool) (pbf : Nat → List Nat) :
    (move_xdev_file ck pb src dst mk fs = (fs2, none) →
       ∃ bs, fs.readFile src = some bs ∧ fs2.readFile dst = some bs ∧
         fs2.readFile src = none) ∧
    (move_xdev_file ck pb src dst mk fs = (fs2, some e) →
       fs2.readFile src = fs.readFile src) ∧
    (move_xdev_file (ckf i) (pbf i) src dst mk fs = (fs2, some e) →
       movePhase ckf pbf mk ((src, dst) :: rest) i fs = (fs2, some e)) := by
  refine ⟨?_, ?_, ?_⟩
  · intro h
    unfold move_xdev_file at h
    dsimp only at h
    split at h
    · obtain ⟨bs, h1, h2, h3⟩ := copyfileThenDelete_success _ _ _ _ _ _ h
      rw [readFile_mkdirs] at h1
      exact ⟨bs, h1, h2, h3⟩
    · split at h
      · simp at h
      · exact copyfileThenDelete_success _ _ _ _ _ _ h
  · intro h
    unfold move_xdev_file at h
    dsimp only at h
    split at h
    · rw [copyfileThenDelete_failure _ _ _ _ _ _ _ h, readFile_mkdirs]
    · split at h
      · obtain rfl : fs = fs2 := congrArg Prod.fst h
        rfl
      · exact copyfileThenDelete_failure _ _ _ _ _ _ _ h
  · intro h
    simp [movePhase, h]

/-- Witness for `copy_then_delete_semantics`: a successful move of the
scenario file, and a failed copy that keeps the source and stops a
two-job queue. -/
theorem copy_then_delete_semantics_witness :
    (∃ bs, fsDocs.readFile "statement.pdf" = some bs ∧
       FS.readFile
         ({ files := [("/docs/Assets/Bank/Checking/2014-06-08.statement.pdf", [1, 2, 3])],
            dirs := ["/docs/Assets/Bank/Checking"] } : FS)
         "/docs/Assets/Bank/Checking/2014-06-08.statement.pdf" = some bs ∧
       FS.readFile
         ({ files := [("/docs/Assets/Bank/Checking/2014-06-08.statement.pdf", [1, 2, 3])],
            dirs := ["/docs/Assets/Bank/Checking"] } : FS) "statement.pdf" = none) ∧
    FS.readFile
      ({ files := [("/docs/Assets/Bank/Checking/2014-06-08.statement.pdf", [9]),
                   ("statement.pdf", [1, 2, 3])],
         dirs := ["/docs/Assets/Bank/Checking"] } : FS) "statement.pdf" =
      fsDocs.readFile "statement.pdf" ∧
    movePhase (fun _ => false) (fun _ => [9]) false
      [("statement.pdf", "/docs/Assets/Bank/Checking/2014-06-08.statement.pdf"),
       ("never-attempted.pdf", "/docs/Assets/Bank/Checking/x.pdf")] 0 fsDocs =
      ({ files := [("/docs/Assets/Bank/Checking/2014-06-08.statement.pdf", [9]),
                   ("statement.pdf", [1, 2, 3])],
         dirs := ["/docs/Assets/Bank/Checking"] }, some .copyFailed) :=
  ⟨(copy_then_delete_semantics true [] "statement.pdf"
      "/docs/Assets/Bank/Checking/2014-06-08.statement.pdf" false fsDocs
      { files := [("/docs/Assets/Bank/Checking/2014-06-08.statement.pdf", [1, 2, 3])],
        dirs := ["/docs/Assets/Bank/Checking"] }
      .copyFailed [] 0 (fun _ => true) (fun _ => [])).1 (by decide),
   (copy_then_delete_semantics false [9] "statement.pdf"
      "/docs/Assets/Bank/Checking/2014-06-08.statement.pdf" false fsDocs
      { files := [("/docs/Assets/Bank/Checking/2014-06-08.statement.pdf", [9]),
                  ("statement.pdf", [1, 2, 3])],
        dirs := ["/docs/Assets/Bank/Checking"] }
      .copyFailed [] 0 (fun _ => false) (fun _ => [9])).2.1 (by decide),
   (copy_then_delete_semantics false [9] "statement.pdf"
      "/docs/Assets/Bank/Checking/2014-06-08.statement.pdf" false fsDocs
      { files := [("/docs/Assets/Bank/Checking/2014-06-08.statement.pdf", [9]),
                  ("statement.pdf", [1, 2, 3])],
        dirs := ["/docs/Assets/Bank/Checking"] }
      .copyFailed [("never-attempted.pdf", "/docs/Assets/Bank/Checking/x.pdf")] 0
      (fun _ => false) (fun _ => [9])).2.2 (by decide)⟩

/-- `takeWhile` passes over a prefix that wholly satisfies the
predicate. -/
theorem takeWhile_append_all (p : Char → Bool) (l₁ l₂ : List Char)
    (h : l₁.all p = true) : (l₁ ++ l₂).takeWhile p = l₁ ++ l₂.takeWhile p := by
  induction l₁ with
  | nil => rfl
  | cons x xs ih =>
    simp only [List.all_cons, Bool.and_eq_true] at h
    simp [List.takeWhile_cons, h.1, ih h.2]

/-- A slash-free string is its own last path component. -/
theorem lastComp_of_slashFree (s : List Char)
    (h : s.all (fun c => c ≠ '/') = true) : lastComp s = s := by
  have h1 : s.reverse.takeWhile (fun c => c ≠ '/') = s.reverse := by
    have h2 := takeWhile_append_all (fun c => c ≠ '/') s.reverse []
      (by rwa [List.all_reverse])
    simpa using h2
  unfold lastComp
  rw [h1, List.reverse_reverse]

/-- The last path component after a closing slash is the slash-free
tail. -/
theorem lastComp_append_slash (xs s : List Char)
    (h : s.all (fun c => c ≠ '/') = true) :
    lastComp (xs ++ '/' :: s) = s := by
  unfold lastComp
  rw [List.reverse_append]
  rw [show ('/' :: s).reverse = s.reverse ++ ['/'] by simp]
  rw [List.append_assoc]
  rw [takeWhile_append_all _ s.reverse _ (by rwa [List.all_reverse])]
  simp [List.takeWhile_cons]

/-- Splitting never yields the empty list of components. -/
theorem splitSlash_ne_nil (cs : List Char) : splitSlash cs ≠ [] := by
  cases cs with
  | nil => simp [splitSlash]
  | cons c rest =>
    unfold splitSlash
    dsimp only
    split <;> simp

/-- A slash-free string is one single component. -/
theorem splitSlash_slashFree (cs : List Char)
    (h : cs.all (fun c => c ≠ '/') = true) : splitSlash cs = [cs] := by
  induction cs with
  | nil => rfl
  | cons c rest ih =>
    simp only [List.all_cons, Bool.and_eq_true, decide_eq_true_eq] at h
    unfold splitSlash
    dsimp only
    rw [ih (by simpa using h.2)]
    simp [h.1]

/-- Splitting a string that ends in a slash followed by a slash-free
tail isolates the tail as the last component. -/
theorem splitSlash_append_slash (cs : List Char)
    (h : cs.all (fun c => c ≠ '/') = true) (xs : List Char) :
    ∃ pre, pre ≠ [] ∧ splitSlash (xs ++ '/' :: cs) = pre ++ [cs] := by
  induction xs with
  | nil =>
    refine ⟨[[]], by simp, ?_⟩
    show splitSlash ('/' :: cs) = [[]] ++ [cs]
    unfold splitSlash
    dsimp only
    rw [splitSlash_slashFree cs h]
    simp
  | cons x xs ih =>
    obtain ⟨pre, hpre, hsplit⟩ := ih
    by_cases hx : x = '/'
    · subst hx
      refine ⟨[] :: pre, by simp, ?_⟩
      show splitSlash ('/' :: (xs ++ '/' :: cs)) = ([] :: pre) ++ [cs]
      unfold splitSlash
      dsimp only
      rw [hsplit]
      simp
    · cases pre with
      | nil => exact absurd rfl hpre
      | cons q pre2 =>
        refine ⟨(x :: q) :: pre2, by simp, ?_⟩
        show splitSlash (x :: (xs ++ '/' :: cs)) = ((x :: q) :: pre2) ++ [cs]
        unfold splitSlash
        dsimp only
        rw [hsplit]
        rw [if_neg hx]
        simp

/-- The one-step equation of `normAux`. -/
theorem normAux_cons (b : Bool) (comp : List Char)
    (rest acc : List (List Char)) :
    normAux b (comp :: rest) acc =
      if comp = [] || comp = ['.'] then normAux b rest acc
      else if comp ≠ ['.', '.'] || (!b && acc = []) ||
          (acc ≠ [] && acc.headD [] = ['.', '.']) then
        normAux b rest (comp :: acc)
      else
        match acc with
        | [] => normAux b rest []
        | _ :: t => normAux b rest t := rfl

/-- A trailing component that is not empty, `.` or `..` is pushed last,
whatever happened before it. -/
theorem normAux_append_single (b : Bool) (comp : List Char)
    (h1 : comp ≠ []) (h2 : comp ≠ ['.']) (h3 : comp ≠ ['.', '.'])
    (pre : List (List Char)) :
    ∀ acc, normAux b (pre ++ [comp]) acc = comp :: normAux b pre acc := by
  induction pre with
  | nil =>
    intro acc
    show normAux b [comp] acc = comp :: normAux b [] acc
    rw [normAux_cons]
    rw [if_neg (by simp [h1, h2])]
    rw [if_pos (by simp [h3])]
    rfl
  | cons c rest ih =>
    intro acc
    rw [List.cons_append, normAux_cons, normAux_cons]
    by_cases hc : (c = [] || c = ['.']) = true
    · rw [if_pos hc, if_pos hc, ih]
    · rw [if_neg hc, if_neg hc]
      by_cases hp : (c ≠ ['.', '.'] || (!b && acc = []) ||
          (acc ≠ [] && acc.headD [] = ['.', '.'])) = true
      · rw [if_pos hp, if_pos hp, ih]
      · rw [if_neg hp, if_neg hp]
        cases acc with
        | nil => exact ih []
        | cons q t => exact ih t

/-- Joining components with a trailing singleton. -/
theorem intercalChar_append_single (M : List (List Char)) (s : List Char) :
    intercalChar (M ++ [s]) =
      if M = [] then s else intercalChar M ++ '/' :: s := by
  have hstep : ∀ (z : List Char) (zs : List (List Char)), zs ≠ [] →
      intercalChar (z :: zs) = z ++ '/' :: intercalChar zs := by
    intro z zs hzs
    cases zs with
    | nil => exact absurd rfl hzs
    | cons _ _ => rfl
  induction M with
  | nil => simp [intercalChar]
  | cons x M ih =>
    cases M with
    | nil => simp [intercalChar]
    | cons y M2 =>
      rw [List.cons_append]
      rw [hstep x _ (by simp), ih]
      rw [if_neg (by simp), if_neg (by simp)]
      rw [hstep x (y :: M2) (by simp)]
      simp

/-- `Nat.digitChar` never yields a path separator or a dot. -/
theorem digitChar_ne_slash_dot (n : Nat) :
    Nat.digitChar n ≠ '/' ∧ Nat.digitChar n ≠ '.' := by
  by_cases hn : n < 16
  · interval_cases n <;> exact ⟨by decide, by decide⟩
  · have hstar : Nat.digitChar n = '*' := by
      unfold Nat.digitChar
      repeat rw [if_neg (by omega)]
    rw [hstar]
    exact ⟨by decide, by decide⟩

/-- Digits accumulate onto characters satisfying any predicate that all
digit characters satisfy. -/
theorem toDigitsCore_all (p : Char → Bool)
    (hp : ∀ m, p (Nat.digitChar m) = true) (b : Nat) (fuel : Nat) :
    ∀ (n : Nat) (ds : List Char), ds.all p = true →
      (Nat.toDigitsCore b fuel n ds).all p = true := by
  induction fuel with
  | zero => intro n ds h; exact h
  | succ f ih =>
    intro n ds h
    unfold Nat.toDigitsCore
    dsimp only
    split
    · simp [List.all_cons, hp, h]
    · exact ih (n / b) (Nat.digitChar (n % b) :: ds) (by simp [List.all_cons, hp, h])

/-- `Nat.toDigitsCore` only returns the empty list when it had no fuel
and no accumulator. -/
theorem toDigitsCore_eq_nil_imp (b : Nat) (fuel : Nat) :
    ∀ n ds, Nat.toDigitsCore b fuel n ds = [] → ds = [] ∧ fuel = 0 := by
  induction fuel with
  | zero => intro n ds h; exact ⟨h, rfl⟩
  | succ f ih =>
    intro n ds h
    unfold Nat.toDigitsCore at h
    dsimp only at h
    split at h
    · exact absurd h (by simp)
    · obtain ⟨h1, -⟩ := ih _ _ h
      exact absurd h1 (by simp)

/-- The decimal representation of a natural number is never empty. -/
theorem repr_data_ne_nil (n : Nat) : (Nat.repr n).data ≠ [] := by
  intro h
  obtain ⟨-, h2⟩ := toDigitsCore_eq_nil_imp 10 (n + 1) n [] h
  exact Nat.succ_ne_zero n h2

/-- All characters of a decimal representation satisfy any predicate
that all digit characters satisfy. -/
theorem repr_data_all (p : Char → Bool)
    (hp : ∀ m, p (Nat.digitChar m) = true) (n : Nat) :
    (Nat.repr n).data.all p = true :=
  toDigitsCore_all p hp 10 (n + 1) n [] rfl

/-- The characters of a zero-padded number. -/
theorem pad_data (w n : Nat) :
    (pad w n).data =
      List.replicate (w - (Nat.repr n).length) '0' ++ (Nat.repr n).data := by
  unfold pad
  rw [String.data_append]

/-- All characters of a zero-padded number satisfy any predicate that
`'0'` and all digit characters satisfy. -/
theorem pad_data_all (p : Char → Bool) (hp0 : p '0' = true)
    (hpd : ∀ m, p (Nat.digitChar m) = true) (w n : Nat) :
    (pad w n).data.all p = true := by
  rw [pad_data, List.all_append]
  refine Bool.and_eq_true_iff.mpr ⟨?_, repr_data_all p hpd n⟩
  rw [List.all_eq_true]
  intro c hc
  rw [List.eq_of_mem_replicate hc]
  exact hp0

/-- A zero-padded number is never empty. -/
theorem pad_data_ne_nil (w n : Nat) : (pad w n).data ≠ [] := by
  rw [pad_data]
  intro h
  exact repr_data_ne_nil n (List.append_eq_nil.mp h).2

/-- The characters of a formatted date. -/
theorem formatDate_data (d : Date) :
    (formatDate d).data =
      (pad 4 d.year).data ++ '-' ::
        ((pad 2 d.month).data ++ '-' :: (pad 2 d.day).data) := by
  unfold formatDate
  rw [String.data_append, String.data_append, String.data_append,
    String.data_append]
  simp

/-- A formatted date has no slash, no dot, and is nonempty. -/
theorem formatDate_props (d : Date) :
    (formatDate d).data.all (fun c => c ≠ '/') = true ∧
    (formatDate d).data.all (fun c => c ≠ '.') = true ∧
    (formatDate d).data ≠ [] := by
  have hs : ∀ w n, ∀ c ∈ (pad w n).data, c ≠ '/' := by
    intro w n c hc
    have hall := pad_data_all (fun c => c ≠ '/') (by decide)
      (fun m => by simp [(digitChar_ne_slash_dot m).1]) w n
    rw [List.all_eq_true] at hall
    simpa using hall c hc
  have hd : ∀ w n, ∀ c ∈ (pad w n).data, c ≠ '.' := by
    intro w n c hc
    have hall := pad_data_all (fun c => c ≠ '.') (by decide)
      (fun m => by simp [(digitChar_ne_slash_dot m).2]) w n
    rw [List.all_eq_true] at hall
    simpa using hall c hc
  refine ⟨?_, ?_, ?_⟩
  · rw [formatDate_data]
    simp [List.all_append, List.all_cons]
    exact ⟨fun x hx => hs _ _ x hx, fun x hx => hs _ _ x hx,
      fun x hx => hs _ _ x hx⟩
  · rw [formatDate_data]
    simp [List.all_append, List.all_cons]
    exact ⟨fun x hx => hd _ _ x hx, fun x hx => hd _ _ x hx,
      fun x hx => hd _ _ x hx⟩
  · rw [formatDate_data]
    intro h
    exact pad_data_ne_nil 4 d.year (List.append_eq_nil.mp h).1

/-- A list with a nonempty dot-free prefix is neither `.` nor `..`. -/
theorem append_ne_dots (l r : List Char) (hl : l ≠ [])
    (h : l.all (fun c => c ≠ '.') = true) :
    l ++ r ≠ ['.'] ∧ l ++ r ≠ ['.', '.'] := by
  cases l with
  | nil => exact absurd rfl hl
  | cons c l2 =>
    simp only [List.all_cons, Bool.and_eq_true, decide_eq_true_eq] at h
    constructor
    · intro he
      rw [List.cons_append] at he
      injection he with he1 he2
      exact h.1 he1
    · intro he
      rw [List.cons_append] at he
      injection he with he1 he2
      exact h.1 he1

/-- `basename` output is always slash-free. -/
theorem slashFree_basename (x : String) : slashFree (basename x) = true := by
  unfold slashFree basename lastComp
  rw [List.all_reverse, List.all_eq_true]
  intro c hc
  simpa using List.mem_takeWhile_imp hc

/-- A list ending in a slash decomposes around its last slash. -/
theorem end_slash_decomp (A : List Char) (hA : A ≠ [])
    (hl : A.getLastD 'x' = '/') : ∃ B, A = B ++ ['/'] := by
  induction A with
  | nil => exact absurd rfl hA
  | cons a A2 ih =>
    cases hA2 : A2 with
    | nil =>
      subst hA2
      exact ⟨[], by simpa using congrArg (fun c => [c]) hl⟩
    | cons b A3 =>
      subst hA2
      have hl2 : (b :: A3).getLastD 'x' = '/' := by
        simpa [List.getLastD] using hl
      obtain ⟨B, hB⟩ := ih (by simp) hl2
      exact ⟨a :: B, by rw [List.cons_append, ← hB]⟩

/-- The reconstruction step of `normpath` keeps a trailing slash-free
component as the final path component. -/
theorem basename_out_aux (k : Nat) (M : List (List Char)) (s : List Char)
    (hs : s.all (fun c => c ≠ '/') = true) (hne : s ≠ []) :
    basename
      (if (List.replicate k '/' ++
          (if M = [] then s else intercalChar M ++ '/' :: s)).isEmpty then "."
       else String.mk (List.replicate k '/' ++
          (if M = [] then s else intercalChar M ++ '/' :: s))) = String.mk s := by
  have hout : List.replicate k '/' ++
      (if M = [] then s else intercalChar M ++ '/' :: s) ≠ [] := by
    split
    · exact fun hc => hne (List.append_eq_nil.mp hc).2
    · intro hc
      exact (by simp : intercalChar M ++ '/' :: s ≠ [])
        (List.append_eq_nil.mp hc).2
  rw [if_neg (by simpa [List.isEmpty_iff] using hout)]
  show String.mk (lastComp _) = String.mk s
  congr 1
  by_cases hMe : M = []
  · rw [if_pos hMe]
    cases k with
    | zero =>
      rw [List.replicate_zero, List.nil_append]
      exact lastComp_of_slashFree s hs
    | succ j =>
      rw [List.replicate_succ' j '/', List.append_assoc]
      exact lastComp_append_slash _ s hs
  · rw [if_neg hMe, ← List.append_assoc]
    exact lastComp_append_slash _ s hs

/-- Normalizing a join whose last segment is slash-free and not a dot
component keeps that segment, exactly, as the final path component. -/
theorem basename_normpath_join (A s : List Char)
    (hs : s.all (fun c => c ≠ '/') = true) (hne : s ≠ [])
    (h1 : s ≠ ['.']) (h2 : s ≠ ['.', '.']) :
    basename (normpath (String.mk (joinChars A s))) = String.mk s := by
  have hhead : ¬ s.headD 'x' = '/' := by
    cases s with
    | nil => exact absurd rfl hne
    | cons c s2 =>
      simp only [List.all_cons, Bool.and_eq_true, decide_eq_true_eq] at hs
      simpa using hs.1
  have hsplit : ∃ pre, splitSlash (joinChars A s) = pre ++ [s] := by
    unfold joinChars
    rw [if_neg hhead]
    split
    · rename_i hA
      by_cases hAe : A = []
      · subst hAe
        exact ⟨[], by rw [List.nil_append, splitSlash_slashFree s hs]; rfl⟩
      · have hAl : A.getLastD 'x' = '/' := by
          rcases Bool.or_eq_true_iff.mp hA with hA1 | hA1
          · exact absurd (List.isEmpty_iff.mp hA1) hAe
          · exact of_decide_eq_true hA1
        obtain ⟨B, hB⟩ := end_slash_decomp A hAe hAl
        obtain ⟨pre, -, hp⟩ := splitSlash_append_slash s hs B
        refine ⟨pre, ?_⟩
        rw [hB, List.append_assoc]
        exact hp
    · obtain ⟨pre, -, hp⟩ := splitSlash_append_slash s hs A
      exact ⟨pre, hp⟩
  obtain ⟨pre, hpre⟩ := hsplit
  have hjoin_ne : joinChars A s ≠ [] := by
    intro hj
    rw [hj] at hpre
    have hone : ([[]] : List (List Char)) = pre ++ [s] := hpre
    cases pre with
    | nil =>
      rw [List.nil_append] at hone
      injection hone with hone1 hone2
      exact hne hone1.symm
    | cons q pre2 =>
      rw [List.cons_append] at hone
      injection hone with hone1 hone2
      exact (by simp : pre2 ++ [s] ≠ []) hone2.symm
  unfold normpath
  rw [show (String.mk (joinChars A s)).data = joinChars A s from rfl]
  rw [if_neg (by simpa [List.isEmpty_iff] using hjoin_ne)]
  dsimp only
  rw [hpre]
  rw [normAux_append_single _ s hne h1 h2 pre]
  rw [List.reverse_cons]
  rw [intercalChar_append_single]
  exact basename_out_aux _ _ s hs hne

/-- C10: only the final path component of the importer-supplied name is
used: the cleaned basename has no separator (provided the idify
normalization introduces none), and the destination's filename component
is exactly the date prefix, a dot, and that basename — never a deeper
path induced by separators in the importer-supplied name. -/
theorem importer_name_directory_stripped (fs : FS) (dest : String) (mk ov : Bool)
    (idf : Option (String → String))
    (hidf : ∀ s, slashFree s = true → slashFree (applyIdf idf s) = true)
    (c : Candidate) (i : ResInfo)
    (h : infoOf (resolveOne fs dest mk ov idf c) = some i) :
    slashFree (cleanedBasename idf c) = true ∧
    basename i.new_fullname =
      formatDate i.date ++ "." ++ cleanedBasename idf c := by
  have hcb : slashFree (cleanedBasename idf c) = true := by
    unfold cleanedBasename
    exact hidf _ (slashFree_basename _)
  refine ⟨hcb, ?_⟩
  rw [infoOf_new_fullname fs dest mk ov idf c i h]
  have hdata : (formatDate i.date ++ "." ++ cleanedBasename idf c).data =
      (formatDate i.date).data ++ ('.' :: (cleanedBasename idf c).data) := by
    rw [String.data_append, String.data_append, List.append_assoc]
    rfl
  have hprops := formatDate_props i.date
  have hall : (formatDate i.date ++ "." ++
      cleanedBasename idf c).data.all (fun ch => ch ≠ '/') = true := by
    rw [hdata, List.all_append, List.all_cons]
    refine Bool.and_eq_true_iff.mpr ⟨hprops.1, Bool.and_eq_true_iff.mpr ⟨by decide, ?_⟩⟩
    exact hcb
  have hcne : (formatDate i.date ++ "." ++ cleanedBasename idf c).data ≠ [] := by
    rw [hdata]
    intro hnil
    exact hprops.2.2 (List.append_eq_nil.mp hnil).1
  have hdots := append_ne_dots (formatDate i.date).data
    ('.' :: (cleanedBasename idf c).data) hprops.2.2 hprops.2.1
  have hd1 : (formatDate i.date ++ "." ++ cleanedBasename idf c).data ≠ ['.'] := by
    rw [hdata]; exact hdots.1
  have hd2 : (formatDate i.date ++ "." ++ cleanedBasename idf c).data ≠ ['.', '.'] := by
    rw [hdata]; exact hdots.2
  exact basename_normpath_join (joinOne dest (accountToPath i.account)).data
    (formatDate i.date ++ "." ++ cleanedBasename idf c).data hall hcne hd1 hd2

/-- Witness for `importer_name_directory_stripped`: the importer-supplied
name `deep/dir/name.pdf` lands as `2014-06-08.name.pdf` directly in the
account directory. -/
theorem importer_name_directory_stripped_witness :
    slashFree (cleanedBasename none candDeep) = true ∧
    basename infoDeep.new_fullname =
      formatDate infoDeep.date ++ "." ++ cleanedBasename none candDeep :=
  importer_name_directory_stripped fsDocs "/docs" false false none
    (fun _ hsf => hsf) candDeep infoDeep (by decide)

end Filing
